import Mathlib

/-!
Shallow embedding of the order-dispatch engine of `src/streamlit_app.py`
(a food-delivery routing teaching program).

Modelling conventions:
* Python `int` becomes `Int` for locations (signed, unbounded) and `Nat` for
  counters and order identifiers.
* The global mutable collections (`my_restaurants`, `my_riders`, `order_queue`,
  `undo_stack`, `order_id_counter`) become the fields of one `EngineState`
  record; every operation is a function `EngineState → result × EngineState`.
* The manually linked `RestaurantLinkedList` is embedded as a `List Restaurant`
  traversed front to back; `find_by_id` is the same linear scan.
* `order_queue` is a `deque` used FIFO: enqueue at the tail (`++ [o]`),
  dequeue from the head.  `undo_stack` is LIFO; we keep the top of the stack
  at the head of the list (Python appends and pops at the same end).
* Python mutates the selected `Rider` object in place inside the shared list;
  we track the rider's position and update the list at that index.
* `my_riders.sort(key=lambda x: x.deliveries_done)` is Python's built-in sort,
  which the language guarantees to be a stable ascending sort by the key; we
  embed it as `List.insertionSort` on the reflexive key order, which is a
  stable ascending sort by the same key.
* I/O (prompts, printing) is presentation glue outside the engine and is not
  modelled; the operations take already-parsed integer inputs.
-/

structure Restaurant where
  id : Int
  name : String
  rating : Rat
  location : Int
deriving Repr, DecidableEq

structure Rider where
  id : Int
  name : String
  location : Int
  deliveries_done : Nat
deriving Repr, DecidableEq

structure Order where
  order_id : Nat
  restaurant_name : String
  restaurant_loc : Int
  customer_loc : Int
deriving Repr, DecidableEq

/-- The five global variables of section 3 of the source, as one record.
`order_id_counter` starts at 1. -/
structure EngineState where
  my_restaurants : List Restaurant
  my_riders : List Rider
  order_queue : List Order
  undo_stack : List String
  order_id_counter : Nat
deriving Repr, DecidableEq

/-- `RestaurantLinkedList.find_by_id`: linear scan in insertion order,
returning the first restaurant with the given id, else `None`. -/
def find_by_id : List Restaurant → Int → Option Restaurant
  | [], _ => none
  | r :: rest, i => if r.id = i then some r else find_by_id rest i

/-- `RestaurantLinkedList.add_restaurant`: append a new restaurant at the end. -/
def add_restaurant (l : List Restaurant) (id : Int) (name : String) (rating : Rat)
    (loc : Int) : List Restaurant :=
  l ++ [⟨id, name, rating, loc⟩]

inductive PlaceResult where
  | invalidRestaurant
  | success (order_id : Nat)
deriving Repr, DecidableEq

/-- `place_order` (lines 119-147 of the source), after input parsing: look the
restaurant up in the linked list; on failure print and return with no state
change; on success create the order with the current counter, bump the
counter, enqueue, and push a history entry. -/
def place_order (s : EngineState) (rest_id : Int) (cust_loc : Int) :
    PlaceResult × EngineState :=
  match find_by_id s.my_restaurants rest_id with
  | none => (PlaceResult.invalidRestaurant, s)
  | some r =>
    let new_order : Order := ⟨s.order_id_counter, r.name, r.location, cust_loc⟩
    (PlaceResult.success new_order.order_id,
     { s with
        order_queue := s.order_queue ++ [new_order],
        undo_stack := ("Placed Order #" ++ toString new_order.order_id) :: s.undo_stack,
        order_id_counter := s.order_id_counter + 1 })

inductive ProcessResult where
  | emptyQueue
  | noRiders
  | assigned (rider_id : Int) (rider_name : String)
      (dist_to_restaurant : Int) (dist_to_cust : Int) (total_dist : Int)
deriving Repr, DecidableEq

/-- The rider-selection loop of `process_order` (lines 162-169):
`best_rider = None; min_distance = 1000` then for each rider, if
`abs(rider.location - restaurant_loc) < min_distance` take that rider and
distance.  We carry the rider's index so the later in-place mutation can be
expressed as a list update.  `i` is the index of the first rider of `rs` in
the full roster. -/
def find_best_aux (loc : Int) :
    List Rider → Option (Nat × Rider) → Int → Nat → Option (Nat × Rider) × Int
  | [], best, minD, _ => (best, minD)
  | r :: rs, best, minD, i =>
    if |r.location - loc| < minD then
      find_best_aux loc rs (some (i, r)) (|r.location - loc|) (i + 1)
    else
      find_best_aux loc rs best minD (i + 1)

/-- The whole loop with its initial values `None` and `1000`. -/
def find_best_rider (riders : List Rider) (loc : Int) : Option (Nat × Rider) × Int :=
  find_best_aux loc riders none 1000 0

/-- `process_order` (lines 149-187): pop the queue head (FIFO); scan the
roster for the best rider; if one was found, compute the customer distance
and the total, bump the rider's delivery count, move the rider to the
customer location, and push a history entry; otherwise ("No riders found!")
change nothing further — the popped order is simply dropped. -/
def process_order (s : EngineState) : ProcessResult × EngineState :=
  match s.order_queue with
  | [] => (ProcessResult.emptyQueue, s)
  | current_order :: rest =>
    match find_best_rider s.my_riders current_order.restaurant_loc with
    | (some (idx, best_rider), min_distance) =>
      let dist_to_cust := |current_order.restaurant_loc - current_order.customer_loc|
      let total_dist := min_distance + dist_to_cust
      (ProcessResult.assigned best_rider.id best_rider.name min_distance
          dist_to_cust total_dist,
       { s with
          order_queue := rest,
          my_riders := s.my_riders.set idx
            { best_rider with
                deliveries_done := best_rider.deliveries_done + 1,
                location := current_order.customer_loc },
          undo_stack :=
            ("Processed Order #" ++ toString current_order.order_id) :: s.undo_stack })
    | (none, _) => (ProcessResult.noRiders, { s with order_queue := rest })

/-- The sort key order of `show_riders_sorted`: ascending `deliveries_done`. -/
def riderLE (a b : Rider) : Prop := a.deliveries_done ≤ b.deliveries_done

instance : DecidableRel riderLE := fun a b => Nat.decLe a.deliveries_done b.deliveries_done

instance : IsTotal Rider riderLE := ⟨fun a b => Nat.le_total a.deliveries_done b.deliveries_done⟩

instance : IsTrans Rider riderLE := ⟨fun _ _ _ => Nat.le_trans⟩

/-- `show_riders_sorted` (lines 189-197): `my_riders.sort(key=lambda x:
x.deliveries_done)` sorts the shared rider list **in place** (stable,
ascending); the subsequent printing is not modelled. -/
def show_riders_sorted (s : EngineState) : EngineState :=
  { s with my_riders := List.insertionSort riderLE s.my_riders }

/-- `undo_last_action` (lines 199-206): pop and report the most recent history
entry, or report nothing when the stack is empty; no other state is touched. -/
def undo_last_action (s : EngineState) : Option String × EngineState :=
  match s.undo_stack with
  | [] => (none, s)
  | last_action :: rest => (some last_action, { s with undo_stack := rest })

/-- `initialize_data` (lines 104-113) applied to the empty initial state
(globals of lines 93-97): the three seed restaurants and three seed riders. -/
def initialize_data : EngineState :=
  { my_restaurants :=
      [⟨101, "Burger King", (9/2 : Rat), 2⟩,
       ⟨102, "Pizza Hut", (21/5 : Rat), 8⟩,
       ⟨103, "Subway", (4 : Rat), 5⟩],
    my_riders := [⟨201, "Ali", 1, 0⟩, ⟨202, "Bilal", 6, 2⟩, ⟨203, "Hamza", 3, 0⟩],
    order_queue := [],
    undo_stack := [],
    order_id_counter := 1 }

/-- The engine operations the menu loop (lines 212-236) can invoke, with
already-validated inputs. -/
inductive Op where
  | place (rest_id : Int) (cust_loc : Int)
  | process
  | showSorted
  | undo
deriving Repr, DecidableEq

/-- State transition of one menu operation. -/
def apply_op (s : EngineState) : Op → EngineState
  | Op.place rid cl => (place_order s rid cl).2
  | Op.process => (process_order s).2
  | Op.showSorted => show_riders_sorted s
  | Op.undo => (undo_last_action s).2

/-- The order identifiers handed out by successful `place_order` calls along a
sequence of operations, in chronological order. -/
def assignedIds (s : EngineState) : List Op → List Nat
  | [] => []
  | Op.place rid cl :: ops =>
    match place_order s rid cl with
    | (PlaceResult.success oid, s') => oid :: assignedIds s' ops
    | (_, s') => assignedIds s' ops
  | op :: ops => assignedIds (apply_op s op) ops

/-- Fold a list of `(restaurant id, customer location)` submissions through
`place_order`. -/
def place_all (s : EngineState) : List (Int × Int) → EngineState
  | [] => s
  | (rid, cl) :: rest => place_all (place_order s rid cl).2 rest

/-- The order ids removed from the queue by `n` successive `process_order`
calls, in the order they are dequeued. -/
def dequeued_ids (s : EngineState) : Nat → List Nat
  | 0 => []
  | n + 1 =>
    match s.order_queue with
    | [] => []
    | o :: _ => o.order_id :: dequeued_ids (process_order s).2 n

/-! ### Basic lemmas about the operations -/

lemma find_by_id_eq_none {l : List Restaurant} {i : Int}
    (h : ∀ r ∈ l, r.id ≠ i) : find_by_id l i = none := by
  induction l with
  | nil => rfl
  | cons r rest ih =>
    simp only [find_by_id]
    rw [if_neg (h r (List.mem_cons_self r rest))]
    exact ih fun r' hr' => h r' (List.mem_cons_of_mem _ hr')

lemma place_order_some (s : EngineState) (rid cl : Int) (r : Restaurant)
    (h : find_by_id s.my_restaurants rid = some r) :
    place_order s rid cl = (PlaceResult.success s.order_id_counter,
      { s with
          order_queue := s.order_queue ++ [⟨s.order_id_counter, r.name, r.location, cl⟩],
          undo_stack :=
            ("Placed Order #" ++ toString s.order_id_counter) :: s.undo_stack,
          order_id_counter := s.order_id_counter + 1 }) := by
  simp [place_order, h]

lemma undo_fst_eq_head (s : EngineState) :
    (undo_last_action s).1 = s.undo_stack.head? := by
  cases h : s.undo_stack <;> simp [undo_last_action, h]

/-- C3: a submission naming a restaurant id absent from the registry fails with
the invalid-restaurant result and leaves the whole state unchanged: order-id
counter not advanced, queue unchanged, no history entry appended. -/
theorem place_order_unknown_restaurant_no_mutation (s : EngineState)
    (rest_id cust_loc : Int) (h : ∀ r ∈ s.my_restaurants, r.id ≠ rest_id) :
    place_order s rest_id cust_loc = (PlaceResult.invalidRestaurant, s) := by
  simp [place_order, find_by_id_eq_none h]

theorem place_order_unknown_restaurant_no_mutation_witness :
    place_order initialize_data 999 5 = (PlaceResult.invalidRestaurant, initialize_data) :=
  place_order_unknown_restaurant_no_mutation initialize_data 999 5 (by decide)

/-- C8: `undo_last_action` pops and returns the most recently recorded history
entry (or reports nothing when the history is empty) and changes nothing else:
registry, roster, queue and order-id counter are exactly as before the call. -/
theorem undo_last_action_pops_only_history :
    (∀ (s : EngineState) (d : String) (rest : List String),
      s.undo_stack = d :: rest →
        undo_last_action s = (some d, { s with undo_stack := rest })) ∧
    (∀ s : EngineState, s.undo_stack = [] → undo_last_action s = (none, s)) := by
  constructor
  · intro s d rest h
    simp [undo_last_action, h]
  · intro s h
    simp [undo_last_action, h]

theorem undo_last_action_pops_only_history_witness :
    undo_last_action { initialize_data with undo_stack := ["Processed Order #1", "Placed Order #1"] } =
      (some "Processed Order #1",
       { initialize_data with undo_stack := ["Placed Order #1"] }) :=
  undo_last_action_pops_only_history.1
    { initialize_data with undo_stack := ["Processed Order #1", "Placed Order #1"] }
    "Processed Order #1" ["Placed Order #1"] rfl

/-- Concrete state for the C10 witness: non-empty queue, empty roster, one
prior history entry. -/
def c10state : EngineState :=
  { my_restaurants := [],
    my_riders := [],
    order_queue := [⟨1, "R", 0, 0⟩],
    undo_stack := ["Placed Order #1"],
    order_id_counter := 2 }

/-- C10: when `process_order` dequeues an order but assigns no rider, no
history entry is appended: the history stack is unchanged and the next
`undo_last_action` returns the entry recorded before the failed processing. -/
theorem failed_process_appends_no_history (s : EngineState) (o : Order)
    (rest : List Order) (hq : s.order_queue = o :: rest)
    (hn : (process_order s).1 = ProcessResult.noRiders) :
    (process_order s).2.undo_stack = s.undo_stack ∧
    (undo_last_action (process_order s).2).1 = s.undo_stack.head? := by
  rcases hfb : find_best_rider s.my_riders o.restaurant_loc with ⟨ob, m⟩
  cases ob with
  | some p =>
    rcases p with ⟨idx, br⟩
    simp [process_order, hq, hfb] at hn
  | none =>
    have h2 : (process_order s).2 = { s with order_queue := rest } := by
      simp [process_order, hq, hfb]
    rw [h2]
    exact ⟨rfl, undo_fst_eq_head _⟩

theorem failed_process_appends_no_history_witness :
    (process_order c10state).2.undo_stack = c10state.undo_stack ∧
    (undo_last_action (process_order c10state).2).1 = c10state.undo_stack.head? :=
  failed_process_appends_no_history c10state ⟨1, "R", 0, 0⟩ [] rfl rfl

/-! ### Characterisation of the selection loop

`find_best_aux` either keeps its accumulator (when every remaining distance is
at least the running minimum) or returns the first rider attaining the overall
minimum distance, which is then strictly below the running minimum. -/

lemma find_best_aux_char (loc : Int) (rs : List Rider) :
    ∀ (b : Option (Nat × Rider)) (m : Int) (i : Nat),
      (find_best_aux loc rs b m i = (b, m) ∧ ∀ r ∈ rs, m ≤ |r.location - loc|) ∨
      (∃ (j : Nat) (r : Rider), rs[j]? = some r ∧
        find_best_aux loc rs b m i = (some (i + j, r), |r.location - loc|) ∧
        |r.location - loc| < m ∧
        (∀ (k : Nat) (rk : Rider), k < j → rs[k]? = some rk →
          |r.location - loc| < |rk.location - loc|) ∧
        (∀ (k : Nat) (rk : Rider), rs[k]? = some rk →
          |r.location - loc| ≤ |rk.location - loc|)) := by
  induction rs with
  | nil =>
    intro b m i
    exact Or.inl ⟨rfl, by simp⟩
  | cons r rs ih =>
    intro b m i
    simp only [find_best_aux]
    by_cases h : |r.location - loc| < m
    · rw [if_pos h]
      rcases ih (some (i, r)) (|r.location - loc|) (i + 1) with
        ⟨heq, hall⟩ | ⟨j, r', hj, heq, hlt, hfirst, hmin⟩
      · refine Or.inr ⟨0, r, by simp, ?_, h, ?_, ?_⟩
        · simpa using heq
        · intro k rk hk
          exact absurd hk (Nat.not_lt_zero k)
        · intro k rk hkr
          cases k with
          | zero =>
            simp only [List.getElem?_cons_zero, Option.some.injEq] at hkr
            exact hkr ▸ le_refl _
          | succ k' =>
            simp only [List.getElem?_cons_succ] at hkr
            exact hall rk (List.getElem?_mem hkr)
      · refine Or.inr ⟨j + 1, r', by simpa using hj, ?_, lt_trans hlt h, ?_, ?_⟩
        · rw [heq]
          have harith : i + 1 + j = i + (j + 1) := by omega
          rw [harith]
        · intro k rk hk hkr
          cases k with
          | zero =>
            simp only [List.getElem?_cons_zero, Option.some.injEq] at hkr
            exact hkr ▸ hlt
          | succ k' =>
            simp only [List.getElem?_cons_succ] at hkr
            exact hfirst k' rk (by omega) hkr
        · intro k rk hkr
          cases k with
          | zero =>
            simp only [List.getElem?_cons_zero, Option.some.injEq] at hkr
            exact hkr ▸ le_of_lt hlt
          | succ k' =>
            simp only [List.getElem?_cons_succ] at hkr
            exact hmin k' rk hkr
    · rw [if_neg h]
      rcases ih b m (i + 1) with
        ⟨heq, hall⟩ | ⟨j, r', hj, heq, hlt, hfirst, hmin⟩
      · refine Or.inl ⟨heq, ?_⟩
        intro r' hr'
        rcases List.mem_cons.mp hr' with rfl | hr'
        · exact not_lt.mp h
        · exact hall r' hr'
      · refine Or.inr ⟨j + 1, r', by simpa using hj, ?_, hlt, ?_, ?_⟩
        · rw [heq]
          have harith : i + 1 + j = i + (j + 1) := by omega
          rw [harith]
        · intro k rk hk hkr
          cases k with
          | zero =>
            simp only [List.getElem?_cons_zero, Option.some.injEq] at hkr
            exact hkr ▸ lt_of_lt_of_le hlt (not_lt.mp h)
          | succ k' =>
            simp only [List.getElem?_cons_succ] at hkr
            exact hfirst k' rk (by omega) hkr
        · intro k rk hkr
          cases k with
          | zero =>
            simp only [List.getElem?_cons_zero, Option.some.injEq] at hkr
            exact hkr ▸ le_of_lt (lt_of_lt_of_le hlt (not_lt.mp h))
          | succ k' =>
            simp only [List.getElem?_cons_succ] at hkr
            exact hmin k' rk hkr

lemma find_best_rider_none_iff (riders : List Rider) (loc : Int) :
    (find_best_rider riders loc).1 = none ↔
      ∀ r ∈ riders, 1000 ≤ |r.location - loc| := by
  constructor
  · intro h
    rcases find_best_aux_char loc riders none 1000 0 with
      ⟨_, hall⟩ | ⟨j, r, _, heq, _, _, _⟩
    · exact hall
    · rw [find_best_rider, heq] at h
      simp at h
  · intro hall
    rcases find_best_aux_char loc riders none 1000 0 with
      ⟨heq, _⟩ | ⟨j, r, hj, heq, hlt, _, _⟩
    · rw [find_best_rider, heq]
    · exact absurd hlt (not_lt.mpr (hall r (List.getElem?_mem hj)))

/-! ### Nearest-rider assignment (C1, C2, C4) -/

/-- Concrete state falsifying the literal C1: one rider at location 1500, a
queued order for a restaurant at location 0.  The roster and the queue are
non-empty, yet the selection loop, whose running minimum starts at the
sentinel 1000, never takes a rider whose distance is 1000 or more. -/
def c1cex : EngineState :=
  { my_restaurants := [],
    my_riders := [⟨299, "Far", 1500, 0⟩],
    order_queue := [⟨1, "R", 0, 0⟩],
    undo_stack := [],
    order_id_counter := 2 }

/-- C1 counterexample: with a non-empty roster and a non-empty queue,
`process_order` can still assign no rider at all (result `noRiders`), because
the minimum-distance search starts from the sentinel value 1000. -/
theorem process_order_far_rider_not_assigned :
    c1cex.my_riders ≠ [] ∧ c1cex.order_queue ≠ [] ∧
    (process_order c1cex).1 = ProcessResult.noRiders := by
  refine ⟨by simp [c1cex], by simp [c1cex], ?_⟩
  rfl

/-- C1 (amended): for every processing step with a non-empty queue such that
at least one rider is within distance < 1000 of the head order's restaurant,
`process_order` assigns the rider whose distance
`|rider.location - order.restaurant_loc|` is minimal over the whole roster;
among riders tied for the minimum the one earliest in roster iteration order
wins (every strictly earlier rider has strictly larger distance). -/
theorem process_order_assigns_nearest_first_seen (s : EngineState) (o : Order)
    (rest : List Order) (hq : s.order_queue = o :: rest)
    (hnear : ∃ r ∈ s.my_riders, |r.location - o.restaurant_loc| < 1000) :
    ∃ (j : Nat) (r : Rider), s.my_riders[j]? = some r ∧
      (process_order s).1 = ProcessResult.assigned r.id r.name
        (|r.location - o.restaurant_loc|) (|o.restaurant_loc - o.customer_loc|)
        (|r.location - o.restaurant_loc| + |o.restaurant_loc - o.customer_loc|) ∧
      (∀ (k : Nat) (rk : Rider), s.my_riders[k]? = some rk →
        |r.location - o.restaurant_loc| ≤ |rk.location - o.restaurant_loc|) ∧
      (∀ (k : Nat) (rk : Rider), k < j → s.my_riders[k]? = some rk →
        |r.location - o.restaurant_loc| < |rk.location - o.restaurant_loc|) := by
  rcases find_best_aux_char o.restaurant_loc s.my_riders none 1000 0 with
    ⟨_, hall⟩ | ⟨j, r, hj, heq, _, hfirst, hmin⟩
  · rcases hnear with ⟨r, hr, hd⟩
    exact absurd hd (not_lt.mpr (hall r hr))
  · refine ⟨j, r, hj, ?_, hmin, hfirst⟩
    have hfb : find_best_rider s.my_riders o.restaurant_loc =
        (some (j, r), |r.location - o.restaurant_loc|) := by
      rw [find_best_rider, heq]
      simp
    simp [process_order, hq, hfb]

/-- C1 witness: the spec's tie-break scenario — riders at locations 1, 6, 3
(ids 201, 202, 203) and a restaurant at location 2 — where rider 201 at
distance 1 is the unique minimum. -/
theorem process_order_assigns_nearest_first_seen_witness :
    ∃ (j : Nat) (r : Rider),
      ({ initialize_data with
          order_queue := [⟨1, "Burger King", 2, 7⟩],
          order_id_counter := 2 } : EngineState).my_riders[j]? = some r ∧
      (process_order { initialize_data with
          order_queue := [⟨1, "Burger King", 2, 7⟩],
          order_id_counter := 2 }).1 = ProcessResult.assigned r.id r.name
        (|r.location - (2 : Int)|) (|(2 : Int) - 7|) (|r.location - (2 : Int)| + |(2 : Int) - 7|) ∧
      (∀ (k : Nat) (rk : Rider),
        ({ initialize_data with
            order_queue := [⟨1, "Burger King", 2, 7⟩],
            order_id_counter := 2 } : EngineState).my_riders[k]? = some rk →
        |r.location - (2 : Int)| ≤ |rk.location - (2 : Int)|) ∧
      (∀ (k : Nat) (rk : Rider), k < j →
        ({ initialize_data with
            order_queue := [⟨1, "Burger King", 2, 7⟩],
            order_id_counter := 2 } : EngineState).my_riders[k]? = some rk →
        |r.location - (2 : Int)| < |rk.location - (2 : Int)|) :=
  process_order_assigns_nearest_first_seen
    { initialize_data with
        order_queue := [⟨1, "Burger King", 2, 7⟩], order_id_counter := 2 }
    ⟨1, "Burger King", 2, 7⟩ [] rfl ⟨⟨201, "Ali", 1, 0⟩, by decide⟩

/-- Concrete state falsifying the literal C2: a single rider whose distance to
the queued order's restaurant is 2500 ≥ 1000. -/
def c2cex : EngineState :=
  { my_restaurants := [],
    my_riders := [⟨298, "Away", 0, 3⟩],
    order_queue := [⟨7, "R", 2500, 4⟩],
    undo_stack := [],
    order_id_counter := 8 }

/-- C2 counterexample: `process_order` reports the no-riders result although
the roster is not empty, so "no riders if and only if the roster is empty"
fails on the code. -/
theorem process_order_noRiders_with_nonempty_roster :
    c2cex.my_riders ≠ [] ∧ (process_order c2cex).1 = ProcessResult.noRiders := by
  refine ⟨by simp [c2cex], ?_⟩
  rfl

/-- C2 (amended): when the queue is non-empty, `process_order` reports the
no-riders result iff every rider of the roster (vacuously, an empty roster)
is at distance at least 1000 from the head order's restaurant; in that case
the dequeued order is still consumed — the resulting state is the old one
with only the queue head removed, so no rider state and no counter changes
and the order is not requeued. -/
theorem process_order_noRiders_characterisation (s : EngineState) (o : Order)
    (rest : List Order) (hq : s.order_queue = o :: rest) :
    ((process_order s).1 = ProcessResult.noRiders ↔
      ∀ r ∈ s.my_riders, 1000 ≤ |r.location - o.restaurant_loc|) ∧
    (s.my_riders = [] → (process_order s).1 = ProcessResult.noRiders) ∧
    ((process_order s).1 = ProcessResult.noRiders →
      (process_order s).2 = { s with order_queue := rest }) := by
  rcases hfb : find_best_rider s.my_riders o.restaurant_loc with ⟨ob, m⟩
  cases ob with
  | none =>
    have hall : ∀ r ∈ s.my_riders, 1000 ≤ |r.location - o.restaurant_loc| :=
      (find_best_rider_none_iff s.my_riders o.restaurant_loc).mp (by rw [hfb])
    refine ⟨⟨fun _ => hall, fun _ => by simp [process_order, hq, hfb]⟩, ?_, ?_⟩
    · intro _
      simp [process_order, hq, hfb]
    · intro _
      simp [process_order, hq, hfb]
  | some p =>
    rcases p with ⟨idx, br⟩
    have hres : (process_order s).1 = ProcessResult.assigned br.id br.name m
        (|o.restaurant_loc - o.customer_loc|) (m + |o.restaurant_loc - o.customer_loc|) := by
      simp [process_order, hq, hfb]
    have hne : (process_order s).1 ≠ ProcessResult.noRiders := by
      rw [hres]
      simp
    refine ⟨⟨fun hcontra => absurd hcontra hne, fun hall => ?_⟩, fun hemp => ?_, fun hcontra => absurd hcontra hne⟩
    · have : (find_best_rider s.my_riders o.restaurant_loc).1 = none :=
        (find_best_rider_none_iff s.my_riders o.restaurant_loc).mpr hall
      rw [hfb] at this
      simp at this
    · rw [hemp] at hfb
      have : find_best_rider ([] : List Rider) o.restaurant_loc = (none, 1000) := rfl
      rw [this] at hfb
      simp at hfb

/-- Concrete state for the C2 witness: empty roster, one pending order. -/
def c2wit : EngineState :=
  { my_restaurants := [],
    my_riders := [],
    order_queue := [⟨2, "S", 1, 1⟩],
    undo_stack := [],
    order_id_counter := 3 }

/-- C2 witness: an empty roster with a pending order — the no-riders result is
reported and the order is consumed with no other change. -/
theorem process_order_noRiders_characterisation_witness :
    ((process_order c2wit).1 = ProcessResult.noRiders ↔
      ∀ r ∈ c2wit.my_riders, 1000 ≤ |r.location - (⟨(2 : Nat), "S", (1 : Int), (1 : Int)⟩ : Order).restaurant_loc|) ∧
    (c2wit.my_riders = [] → (process_order c2wit).1 = ProcessResult.noRiders) ∧
    ((process_order c2wit).1 = ProcessResult.noRiders →
      (process_order c2wit).2 = { c2wit with order_queue := [] }) :=
  process_order_noRiders_characterisation c2wit ⟨2, "S", 1, 1⟩ [] rfl

/-- C4: whenever the selection loop found a rider (at roster index `idx`,
with minimum distance `d`), `process_order` computes
`dist_to_cust = |restaurant_loc - customer_loc|` and
`total = d + dist_to_cust`, reports them, increments the assigned rider's
delivery counter by exactly one and sets that rider's location to the order's
customer location; moreover the assigned rider really is the roster element
at `idx` and `d` is its distance to the restaurant. -/
theorem process_order_success_updates (s : EngineState) (o : Order)
    (rest : List Order) (idx : Nat) (r : Rider) (d : Int)
    (hq : s.order_queue = o :: rest)
    (hfb : find_best_rider s.my_riders o.restaurant_loc = (some (idx, r), d)) :
    s.my_riders[idx]? = some r ∧ d = |r.location - o.restaurant_loc| ∧
    process_order s =
      (ProcessResult.assigned r.id r.name d (|o.restaurant_loc - o.customer_loc|)
          (d + |o.restaurant_loc - o.customer_loc|),
       { s with
          order_queue := rest,
          my_riders := s.my_riders.set idx
            { r with
                deliveries_done := r.deliveries_done + 1,
                location := o.customer_loc },
          undo_stack :=
            ("Processed Order #" ++ toString o.order_id) :: s.undo_stack }) := by
  have hidx : s.my_riders[idx]? = some r ∧ d = |r.location - o.restaurant_loc| := by
    rcases find_best_aux_char o.restaurant_loc s.my_riders none 1000 0 with
      ⟨heq, _⟩ | ⟨j, r', hj, heq, _, _, _⟩
    · rw [find_best_rider, heq] at hfb
      simp at hfb
    · rw [find_best_rider, heq] at hfb
      simp only [Prod.mk.injEq, Option.some.injEq, Prod.mk.injEq] at hfb
      rcases hfb with ⟨⟨hjidx, hrr⟩, hd⟩
      subst hrr
      rw [← hjidx]
      simpa using ⟨hj, hd.symm⟩
  exact ⟨hidx.1, hidx.2, by simp [process_order, hq, hfb]⟩

/-- C4 witness: the spec's end-to-end scenario — Ali (index 0, distance 1) is
assigned order 1 from the restaurant at location 2 with customer at 7;
`dist_to_cust = 5`, `total = 6`, Ali's counter becomes 1 and location 7. -/
theorem process_order_success_updates_witness :
    ({ initialize_data with
        order_queue := [⟨1, "Burger King", 2, 7⟩],
        order_id_counter := 2 } : EngineState).my_riders[0]? =
          some ⟨201, "Ali", 1, 0⟩ ∧
    (1 : Int) = |(1 : Int) - 2| ∧
    process_order { initialize_data with
        order_queue := [⟨1, "Burger King", 2, 7⟩], order_id_counter := 2 } =
      (ProcessResult.assigned 201 "Ali" 1 (|(2 : Int) - 7|) (1 + |(2 : Int) - 7|),
       { initialize_data with
          order_queue := [],
          my_riders :=
            ({ initialize_data with
                order_queue := [⟨1, "Burger King", 2, 7⟩],
                order_id_counter := 2 } : EngineState).my_riders.set 0
              ⟨201, "Ali", 7, 1⟩,
          undo_stack := ["Processed Order #1"],
          order_id_counter := 2 }) :=
  process_order_success_updates
    { initialize_data with
        order_queue := [⟨1, "Burger King", 2, 7⟩], order_id_counter := 2 }
    ⟨1, "Burger King", 2, 7⟩ [] 0 ⟨201, "Ali", 1, 0⟩ 1 rfl (by decide)

/-! ### Queue FIFO (C5) -/

lemma process_order_pops_head (s : EngineState) (o : Order) (rest : List Order)
    (hq : s.order_queue = o :: rest) : (process_order s).2.order_queue = rest := by
  rcases hfb : find_best_rider s.my_riders o.restaurant_loc with ⟨ob, m⟩
  cases ob with
  | none => simp [process_order, hq, hfb]
  | some p =>
    rcases p with ⟨idx, br⟩
    simp [process_order, hq, hfb]

lemma dequeued_ids_eq_take (n : Nat) :
    ∀ s : EngineState, dequeued_ids s n = (s.order_queue.take n).map Order.order_id := by
  induction n with
  | zero => intro s; simp [dequeued_ids]
  | succ n ih =>
    intro s
    rcases hq : s.order_queue with _ | ⟨o, rest⟩
    · simp [dequeued_ids, hq]
    · simp only [dequeued_ids, hq]
      rw [ih (process_order s).2, process_order_pops_head s o rest hq]
      simp

lemma place_all_queue_ids (subs : List (Int × Int)) :
    ∀ s : EngineState,
      (∀ p ∈ subs, (find_by_id s.my_restaurants p.1).isSome = true) →
      (place_all s subs).order_queue.map Order.order_id =
        s.order_queue.map Order.order_id ++
          List.range' s.order_id_counter subs.length := by
  induction subs with
  | nil => intro s _; simp [place_all]
  | cons p rest ih =>
    rcases p with ⟨rid, cl⟩
    intro s hall
    have h1 : (find_by_id s.my_restaurants rid).isSome = true :=
      hall _ (List.mem_cons_self _ _)
    rcases hr : find_by_id s.my_restaurants rid with _ | r
    · rw [hr] at h1
      simp at h1
    · have hp := place_order_some s rid cl r hr
      simp only [place_all, hp]
      rw [ih _ ?_]
      · simp [List.range'_succ]
      · intro q hq2
        exact hall q (List.mem_cons_of_mem _ hq2)

/-- C5: starting from a state with an empty queue and a non-empty roster,
submitting N orders (all against registered restaurants) and then processing
N times removes the orders in exactly the order they were submitted: the
sequence of dequeued order ids is the consecutive run of ids handed out at
submission, i.e. the queue is pure FIFO. -/
theorem fifo_processing (subs : List (Int × Int)) (s : EngineState)
    (hq : s.order_queue = []) (_hr : s.my_riders ≠ [])
    (hvalid : ∀ p ∈ subs, (find_by_id s.my_restaurants p.1).isSome = true) :
    dequeued_ids (place_all s subs) subs.length =
      List.range' s.order_id_counter subs.length := by
  rw [dequeued_ids_eq_take]
  have h := place_all_queue_ids subs s hvalid
  rw [hq] at h
  simp only [List.map_nil, List.nil_append] at h
  have hlen : (place_all s subs).order_queue.length = subs.length := by
    have h2 := congrArg List.length h
    simpa using h2
  rw [List.take_of_length_le (le_of_eq hlen), h]

/-- C5 witness: two submissions against the seed registry followed by two
processings dequeue order ids 1 then 2. -/
theorem fifo_processing_witness :
    dequeued_ids (place_all initialize_data [(101, 7), (103, 4)]) 2 =
      List.range' 1 2 :=
  fifo_processing [(101, 7), (103, 4)] initialize_data rfl
    (by simp [initialize_data]) (by decide)

/-! ### Order-id counter (C6) -/

lemma process_order_counter (s : EngineState) :
    (process_order s).2.order_id_counter = s.order_id_counter := by
  rcases hq : s.order_queue with _ | ⟨o, rest⟩
  · simp [process_order, hq]
  · rcases hfb : find_best_rider s.my_riders o.restaurant_loc with ⟨ob, m⟩
    cases ob with
    | none => simp [process_order, hq, hfb]
    | some p =>
      rcases p with ⟨idx, br⟩
      simp [process_order, hq, hfb]

lemma undo_counter (s : EngineState) :
    (undo_last_action s).2.order_id_counter = s.order_id_counter := by
  cases h : s.undo_stack <;> simp [undo_last_action, h]

lemma assignedIds_range (ops : List Op) :
    ∀ s : EngineState, ∃ k, assignedIds s ops = List.range' s.order_id_counter k := by
  induction ops with
  | nil => intro s; exact ⟨0, rfl⟩
  | cons op rest ih =>
    intro s
    cases op with
    | place rid cl =>
      rcases hr : find_by_id s.my_restaurants rid with _ | r
      · have hfail : place_order s rid cl = (PlaceResult.invalidRestaurant, s) := by
          simp [place_order, hr]
        simp only [assignedIds, hfail]
        exact ih s
      · have hp := place_order_some s rid cl r hr
        simp only [assignedIds, hp]
        rcases ih ((place_order s rid cl).2) with ⟨k, hk⟩
        rw [hp] at hk
        refine ⟨k + 1, ?_⟩
        rw [hk, List.range'_succ]
    | process =>
      simp only [assignedIds, apply_op]
      rcases ih ((process_order s).2) with ⟨k, hk⟩
      exact ⟨k, by rw [hk, process_order_counter]⟩
    | showSorted =>
      simp only [assignedIds, apply_op]
      rcases ih (show_riders_sorted s) with ⟨k, hk⟩
      exact ⟨k, hk⟩
    | undo =>
      simp only [assignedIds, apply_op]
      rcases ih ((undo_last_action s).2) with ⟨k, hk⟩
      exact ⟨k, by rw [hk, undo_counter]⟩

/-- C6: across every sequence of engine operations started with the counter at
its initial value 1, the order ids handed out by successful submissions form
the consecutive run 1, 2, …, k for some k — sequential from 1, strictly
increasing, never reused or reassigned. -/
theorem order_ids_sequential_from_one (ops : List Op) (s : EngineState)
    (h : s.order_id_counter = 1) :
    ∃ k, assignedIds s ops = List.range' 1 k ∧
      (assignedIds s ops).Pairwise (· < ·) := by
  rcases assignedIds_range ops s with ⟨k, hk⟩
  rw [h] at hk
  exact ⟨k, hk, hk ▸ List.pairwise_lt_range' 1 k⟩

/-- C6 witness: a mixed operation sequence on the seed data (successful and
failed submissions, processing, ranking, undo). -/
theorem order_ids_sequential_from_one_witness :
    ∃ k, assignedIds initialize_data
        [Op.place 101 7, Op.process, Op.place 999 0, Op.place 102 3,
         Op.undo, Op.showSorted, Op.place 103 6] = List.range' 1 k ∧
      (assignedIds initialize_data
        [Op.place 101 7, Op.process, Op.place 999 0, Op.place 102 3,
         Op.undo, Op.showSorted, Op.place 103 6]).Pairwise (· < ·) :=
  order_ids_sequential_from_one
    [Op.place 101 7, Op.process, Op.place 999 0, Op.place 102 3,
     Op.undo, Op.showSorted, Op.place 103 6] initialize_data rfl

/-! ### Stable workload ranking (C7, C9) -/

lemma filter_orderedInsert_workload (a : Rider) (k : Nat) :
    ∀ l : List Rider,
      (List.orderedInsert riderLE a l).filter
          (fun x => x.deliveries_done == k) =
        if a.deliveries_done == k then
          a :: l.filter (fun x => x.deliveries_done == k)
        else l.filter (fun x => x.deliveries_done == k) := by
  intro l
  induction l with
  | nil =>
    simp only [List.orderedInsert, List.filter]
    cases h : (a.deliveries_done == k) <;> simp [h]
  | cons b l ih =>
    by_cases hab : riderLE a b
    · rw [List.orderedInsert_of_le _ _ hab]
      cases h : (a.deliveries_done == k) <;> simp [List.filter, h]
    · have hba : b.deliveries_done < a.deliveries_done := by
        simpa [riderLE] using hab
      simp only [List.orderedInsert, if_neg hab]
      cases h : (a.deliveries_done == k) with
      | true =>
        have hk : a.deliveries_done = k := by simpa using h
        have hbk : (b.deliveries_done == k) = false := by
          simp only [beq_eq_false_iff_ne, ne_eq]
          omega
        simp only [List.filter, hbk, ih, h]
      | false =>
        cases hb : (b.deliveries_done == k) <;>
          simp [List.filter, hb, ih, h]

lemma insertionSort_workload_filter (k : Nat) :
    ∀ l : List Rider,
      (List.insertionSort riderLE l).filter (fun x => x.deliveries_done == k) =
        l.filter (fun x => x.deliveries_done == k) := by
  intro l
  induction l with
  | nil => rfl
  | cons b l ih =>
    simp only [List.insertionSort]
    rw [filter_orderedInsert_workload]
    cases h : (b.deliveries_done == k) <;> simp [List.filter, h, ih]

/-- C7: the rider list produced by `show_riders_sorted` is sorted ascending by
the deliveries-completed counter, is a permutation of the input roster, keeps
riders with equal workload in their relative input order (the equal-workload
subsequences are unchanged), and applying the operation twice in a row
without intervening mutation yields an identical state. -/
theorem show_riders_sorted_stable (s : EngineState) :
    ((show_riders_sorted s).my_riders).Sorted riderLE ∧
    ((show_riders_sorted s).my_riders).Perm s.my_riders ∧
    (∀ k : Nat,
      (show_riders_sorted s).my_riders.filter (fun x => x.deliveries_done == k) =
        s.my_riders.filter (fun x => x.deliveries_done == k)) ∧
    show_riders_sorted (show_riders_sorted s) = show_riders_sorted s := by
  refine ⟨List.sorted_insertionSort riderLE s.my_riders,
    List.perm_insertionSort riderLE s.my_riders,
    fun k => insertionSort_workload_filter k s.my_riders, ?_⟩
  simp only [show_riders_sorted]
  rw [(List.sorted_insertionSort riderLE s.my_riders).insertionSort_eq]

/-- Concrete state for C9: two riders tied at location 2 whose roster order
(Dana before Omar) differs from their workload order (Omar 0 before Dana 5);
one queued order for a restaurant at location 2, customer at 9. -/
def c9state : EngineState :=
  { my_restaurants := [],
    my_riders := [⟨211, "Dana", 2, 5⟩, ⟨212, "Omar", 2, 0⟩],
    order_queue := [⟨4, "Cafe", 2, 9⟩],
    undo_stack := [],
    order_id_counter := 5 }

/-- C9: `show_riders_sorted` reorders the shared roster itself — the rider
list of the resulting state is the workload-sorted permutation while every
other field is untouched — and a subsequent `process_order` iterates the
sorted roster, so its first-seen-wins tie-break follows workload order, not
registration order: on `c9state` the unsorted roster assigns rider 211
(Dana, first registered) while after the ranking view the same processing
assigns rider 212 (Omar, lower workload). -/
theorem show_riders_sorted_mutates_roster :
    (∀ s : EngineState,
      (show_riders_sorted s).my_riders = List.insertionSort riderLE s.my_riders ∧
      (show_riders_sorted s).my_restaurants = s.my_restaurants ∧
      (show_riders_sorted s).order_queue = s.order_queue ∧
      (show_riders_sorted s).undo_stack = s.undo_stack ∧
      (show_riders_sorted s).order_id_counter = s.order_id_counter) ∧
    (process_order c9state).1 = ProcessResult.assigned 211 "Dana" 0 7 7 ∧
    (show_riders_sorted c9state).my_riders =
      [⟨212, "Omar", 2, 0⟩, ⟨211, "Dana", 2, 5⟩] ∧
    (process_order (show_riders_sorted c9state)).1 =
      ProcessResult.assigned 212 "Omar" 0 7 7 := by
  refine ⟨fun s => ⟨rfl, rfl, rfl, rfl, rfl⟩, ?_, ?_, ?_⟩
  · rfl
  · rfl
  · rfl
